import Mathlib

/-!
Verification development for the caucion rate-monitor engine in monitor.py.
All machine arithmetic of the script is exact decimal arithmetic over Python
floats on small decimal literals; it is embedded here over the rationals.
Fallible operations (Python exceptions) are embedded with Except.
-/

namespace BymAlert

/-- Embedding of a JSON field value as the script reads it from a market row:
absent key, JSON null, a numeric value, or a value on which Python int() and
float() raise. -/
inductive JVal where
  | missing
  | null
  | num (q : ℚ)
  | nonnum
deriving DecidableEq

/-- Embedding of Python exceptions the engine can raise, plus the failure of
the outbound delivery call. -/
inductive PyErr where
  | valueError
  | typeError
  | deliveryError
deriving DecidableEq

/-- A raw market row, with the four fields monitor.py reads.  A non-string or
absent denominationCcy is collapsed to none since it is only compared against
the string ARS. -/
structure Row where
  denominationCcy : Option String
  daysToMaturity : JVal
  settlementPrice : JVal
  maturityDate : Option String
deriving DecidableEq

/-- Python int() on a float: truncation toward zero. -/
def pyInt (q : ℚ) : ℤ :=
  q.num.tdiv (q.den : ℤ)

/-- The rate the loop extracts from a stored row: float(row.get a settlement
price with default 0.0).  Rows stored by the selector always carry missing or
numeric settlementPrice, so the remaining branches are unreachable there. -/
def rateD (x : Row) : ℚ :=
  match x.settlementPrice with
  | JVal.num q => q
  | _ => 0

/-- float(x.get a settlementPrice with default 0.0): absent key gives the
default, null raises TypeError, a non-numeric value raises ValueError. -/
def rowRate (x : Row) : Except PyErr ℚ :=
  match x.settlementPrice with
  | JVal.missing => Except.ok 0
  | JVal.null => Except.error PyErr.typeError
  | JVal.num q => Except.ok q
  | JVal.nonnum => Except.error PyErr.valueError

/-- Association lookup on the best-by-days dict, first matching key. -/
def lookupDay : List (ℤ × Row) → ℤ → Option Row
  | [], _ => none
  | (k, v) :: rest, d => if k = d then some v else lookupDay rest d

/-- Python dict assignment to an existing key: replace in place, keeping the
position of the entry. -/
def replaceDay : List (ℤ × Row) → ℤ → Row → List (ℤ × Row)
  | [], _, _ => []
  | (k, v) :: rest, d, x => if k = d then (d, x) :: rest else (k, v) :: replaceDay rest d x

/-- One iteration of the best-offer loop of main over a row already filtered
to the target currency: skip when daysToMaturity is absent or null, raise on a
non-numeric one, skip when the day is outside 1..30, then keep the row when
its day is new or its rate strictly beats the stored one. -/
def stepRow (acc : List (ℤ × Row)) (x : Row) : Except PyErr (List (ℤ × Row)) :=
  match x.daysToMaturity with
  | JVal.missing => Except.ok acc
  | JVal.null => Except.ok acc
  | JVal.nonnum => Except.error PyErr.valueError
  | JVal.num q =>
    let d := pyInt q
    if d < 1 ∨ 30 < d then Except.ok acc
    else
      match rowRate x with
      | Except.error e => Except.error e
      | Except.ok rate =>
        match lookupDay acc d with
        | none => Except.ok (acc ++ [(d, x)])
        | some prev =>
          match rowRate prev with
          | Except.error e => Except.error e
          | Except.ok prevRate =>
            if prevRate < rate then Except.ok (replaceDay acc d x) else Except.ok acc

/-- Folding stepRow over the currency-filtered rows. -/
def selectGo : List Row → List (ℤ × Row) → Except PyErr (List (ℤ × Row))
  | [], acc => Except.ok acc
  | x :: rest, acc =>
    match stepRow acc x with
    | Except.error e => Except.error e
    | Except.ok acc2 => selectGo rest acc2

/-- The Quote Selector of main: filter rows to denominationCcy ARS, then build
the best-by-days mapping. -/
def selectBest (rows : List Row) : Except PyErr (List (ℤ × Row)) :=
  selectGo (rows.filter (fun x => decide (x.denominationCcy = some "ARS"))) []

/-- A persisted state value: a legacy bare number, or an object with the two
optional fields last_sent_ts and last_sent_rate. -/
inductive StateVal where
  | legacy (r : ℚ)
  | obj (last_sent_ts : Option ℚ) (last_sent_rate : Option ℚ)
deriving DecidableEq

/-- The persisted notification state: a JSON object, embedded as an
association list keyed by strings. -/
def StateMap := List (String × StateVal)

/-- Association lookup on the state, first matching key. -/
def lookupState : StateMap → String → Option StateVal
  | [], _ => none
  | (k, v) :: rest, key => if k = key then some v else lookupState rest key

/-- Python dict assignment on the state: replace in place or append. -/
def setKey : StateMap → String → StateVal → StateMap
  | [], key, v => [(key, v)]
  | (k, w) :: rest, key, v => if k = key then (key, v) :: rest else (k, w) :: setKey rest key v

def COOLDOWN_MINUTES : ℚ := 15

def MIN_IMPROVEMENT : ℚ := 1/10

/-- The read path of should_notify: state.get of the key with default an empty
dict, then last_sent_ts and last_sent_rate with default 0; a bare number is
taken as the last sent rate with timestamp 0. -/
def entryFields : Option StateVal → ℚ × ℚ
  | none => (0, 0)
  | some (StateVal.legacy r) => (0, r)
  | some (StateVal.obj ts rt) => (ts.getD 0, rt.getD 0)

/-- should_notify of monitor.py; the call time.time() is passed in as now. -/
def should_notify (state : StateMap) (key : String) (rate : ℚ) (now : ℚ) : Bool :=
  let lf := entryFields (lookupState state key)
  decide (COOLDOWN_MINUTES * 60 ≤ now - lf.1) || decide (lf.2 + MIN_IMPROVEMENT ≤ rate)

/-- update_state of monitor.py; the call time.time() is passed in as now. -/
def update_state (state : StateMap) (key : String) (rate : ℚ) (now : ℚ) : StateMap :=
  setKey state key (StateVal.obj (some now) (some rate))

/-- net_profit of monitor.py. -/
def net_profit (amount : ℚ) (days : ℤ) (annual_rate_pct : ℚ) (base_days : ℤ) (cost_rate : ℚ) : ℚ :=
  let gross := amount * (annual_rate_pct / 100) * ((days : ℚ) / (base_days : ℚ))
  let cost := amount * cost_rate
  gross - cost

/-- required_capital_for_profit of monitor.py. -/
def required_capital_for_profit (min_profit : ℚ) (days : ℤ) (annual_rate_pct : ℚ)
    (base_days : ℤ) (cost_rate : ℚ) : Option ℚ :=
  let per_peso := (annual_rate_pct / 100) * ((days : ℚ) / (base_days : ℚ)) - cost_rate
  if per_peso ≤ 0 then none
  else some (min_profit / per_peso)

/-- A capital rule from rules.json after load_rules normalization; thresholds
is the per-day minimum-rate map. -/
structure Rule where
  capital_min : ℚ
  capital_max : ℚ
  day_min : ℤ
  day_max : ℤ
  min_net_profit : ℚ
  thresholds : List (ℤ × ℚ)
deriving DecidableEq

/-- Association lookup on the thresholds map of a rule. -/
def lookupThr : List (ℤ × ℚ) → ℤ → Option ℚ
  | [], _ => none
  | (k, v) :: rest, d => if k = d then some v else lookupThr rest d

/-- The data of one matching-rule line of the report, one per rule that
passes every gate for a maturity. -/
structure MatchedResult where
  days : ℤ
  rate : ℚ
  cap_min : ℚ
  cap_max : ℚ
  min_profit : ℚ
  net_min : ℚ
  net_max : ℚ
  desde : Option ℚ
  threshold : ℚ
deriving DecidableEq

/-- The body of the inner rule loop of main for one (maturity, rule) pair:
skip when the day is out of the rule range, when no threshold is configured
for the exact day, when the rate is under the threshold, or when even the net
at capital_max misses min_net_profit; otherwise emit the result, with the
clamped required capital when min_net_profit is positive. -/
def evalRule (rule : Rule) (days : ℤ) (rate : ℚ) (base_days : ℤ) (cost_rate : ℚ) :
    Option MatchedResult :=
  if days < rule.day_min ∨ rule.day_max < days then none
  else
    match lookupThr rule.thresholds days with
    | none => none
    | some threshold =>
      if rate < threshold then none
      else
        let net_min := net_profit rule.capital_min days rate base_days cost_rate
        let net_max := net_profit rule.capital_max days rate base_days cost_rate
        if net_max < rule.min_net_profit then none
        else
          let desde :=
            if 0 < rule.min_net_profit then
              (required_capital_for_profit rule.min_net_profit days rate base_days cost_rate).map
                (fun req => max rule.capital_min (min rule.capital_max req))
            else none
          some ⟨days, rate, rule.capital_min, rule.capital_max, rule.min_net_profit,
                net_min, net_max, desde, threshold⟩

/-- The best-pick update of main: take the new result when there is no pick
yet or the net at capital_max strictly improves, else keep the old pick. -/
def betterPick (best0 : Option MatchedResult) (mr : MatchedResult) : Option MatchedResult :=
  match best0 with
  | none => some mr
  | some b => if b.net_max < mr.net_max then some mr else some b

/-- The inner rule loop of main for one maturity: collect the matched results
in rule order and fold the best-pick update. -/
def processRules (rules : List Rule) (days : ℤ) (rate : ℚ) (base_days : ℤ) (cost_rate : ℚ)
    (best0 : Option MatchedResult) : List MatchedResult × Option MatchedResult :=
  match rules with
  | [] => ([], best0)
  | rule :: rest =>
    match evalRule rule days rate base_days cost_rate with
    | none => processRules rest days rate base_days cost_rate best0
    | some mr =>
      let pr := processRules rest days rate base_days cost_rate (betterPick best0 mr)
      (mr :: pr.1, pr.2)

/-- The mutable locals of the day loop of main. -/
structure CycleAcc where
  day_sections : List (ℤ × List MatchedResult)
  changed : Bool
  triggered_any : Bool
  best_pick : Option MatchedResult
  state : StateMap

/-- One iteration of the day loop of main: evaluate every rule (updating the
best pick), skip the maturity when no rule matched or the gatekeeper
suppresses it, and otherwise record the section, mark the cycle as triggered
and changed, and overwrite the state entry of the key. -/
def processDay (rules : List Rule) (base_days : ℤ) (cost_rate : ℚ) (now : ℚ)
    (acc : CycleAcc) (entry : ℤ × Row) : CycleAcc :=
  let days := entry.1
  let rate := rateD entry.2
  let pr := processRules rules days rate base_days cost_rate acc.best_pick
  if pr.1 = [] then { acc with best_pick := pr.2 }
  else if should_notify acc.state ("ARS_" ++ toString days) rate now then
    { day_sections := acc.day_sections ++ [(days, pr.1)],
      changed := true,
      triggered_any := true,
      best_pick := pr.2,
      state := update_state acc.state ("ARS_" ++ toString days) rate now }
  else { acc with best_pick := pr.2 }

/-- Insertion into a day-sorted list, embedding sorted of Python on the items
of the best-by-days dict (keys are distinct). -/
def insertByDay (p : ℤ × Row) : List (ℤ × Row) → List (ℤ × Row)
  | [] => [p]
  | q :: rest => if p.1 ≤ q.1 then p :: q :: rest else q :: insertByDay p rest

/-- sorted of Python on the items of the best-by-days dict. -/
def sortByDay : List (ℤ × Row) → List (ℤ × Row)
  | [] => []
  | p :: rest => insertByDay p (sortByDay rest)

/-- The whole day loop of main, starting from the freshly loaded state. -/
def evalCycle (best_by_days : List (ℤ × Row)) (rules : List Rule) (base_days : ℤ)
    (cost_rate : ℚ) (state0 : StateMap) (now : ℚ) : CycleAcc :=
  (sortByDay best_by_days).foldl (processDay rules base_days cost_rate now)
    { day_sections := [], changed := false, triggered_any := false,
      best_pick := none, state := state0 }

/-- The notification payload handed to the delivery collaborator: the ordered
per-maturity sections and the optional best-opportunity block. -/
structure Payload where
  sections : List (ℤ × List MatchedResult)
  best : Option MatchedResult
deriving DecidableEq

/-- The outcome of one completed cycle: the in-memory state, whether
save_state ran, and the delivered payload when one was sent. -/
structure CycleResult where
  state : StateMap
  saved : Bool
  payload : Option Payload

/-- One cycle of main after load_rules: bind the fetch result, run the Quote
Selector, run the day loop, send the payload when anything triggered (a failed
delivery raises before the save step), and save the state exactly when the
changed flag is set. -/
def runCycle (fetched : Except PyErr (List Row)) (rules : List Rule) (cost_rate : ℚ)
    (base_days : ℤ) (state0 : StateMap) (now : ℚ) (deliveryOk : Bool) :
    Except PyErr CycleResult :=
  match fetched with
  | Except.error e => Except.error e
  | Except.ok data =>
    match selectBest data with
    | Except.error e => Except.error e
    | Except.ok best_by_days =>
      let acc := evalCycle best_by_days rules base_days cost_rate state0 now
      if acc.triggered_any then
        if deliveryOk then
          Except.ok { state := acc.state, saved := acc.changed,
                      payload := some ⟨acc.day_sections, acc.best_pick⟩ }
        else Except.error PyErr.deliveryError
      else Except.ok { state := acc.state, saved := acc.changed, payload := none }

/-- Day-candidate test for the selection specification: the row carries a
numeric daysToMaturity that truncates to d, and d is inside 1..30. -/
def candDayB (x : Row) (d : ℤ) : Bool :=
  match x.daysToMaturity with
  | JVal.num q => decide (pyInt q = d) && decide (1 ≤ pyInt q) && decide (pyInt q ≤ 30)
  | _ => false

/-- Modelled from the Quote Selector contract of the spec: the
target-currency, in-range rows of a given maturity, in input order. -/
def candidates (rows : List Row) (d : ℤ) : List Row :=
  rows.filter (fun x => decide (x.denominationCcy = some "ARS") && candDayB x d)

/-- Modelled from the Quote Selector contract of the spec: keep the current
pick unless the new rate strictly beats it. -/
def updOne (o : Option Row) (x : Row) : Option Row :=
  match o with
  | none => some x
  | some y => if rateD y < rateD x then some x else some y

/-- Modelled from the Quote Selector contract of the spec: the
maximum-rate row, keeping the first one encountered on ties. -/
def firstMax (l : List Row) : Option Row :=
  l.foldl updOne none

/-- The rule of Scenario A of the spec. -/
def scenarioARule : Rule :=
  ⟨100000, 1000000, 1, 30, 0, [(7, 50)]⟩

/-- A well-shaped row for the selector: daysToMaturity is not non-numeric,
and settlementPrice is neither null nor non-numeric. -/
def GoodRow (x : Row) : Prop :=
  x.daysToMaturity ≠ JVal.nonnum ∧ x.settlementPrice ≠ JVal.null ∧
    x.settlementPrice ≠ JVal.nonnum

/-- Shape invariant of the entries of the best-by-days dict. -/
def GoodEntry (p : ℤ × Row) : Prop :=
  (p.2.settlementPrice ≠ JVal.null ∧ p.2.settlementPrice ≠ JVal.nonnum) ∧
    ∃ q, p.2.daysToMaturity = JVal.num q ∧ p.1 = pyInt q

/-- An ARS row whose daysToMaturity is not numeric: Python int() raises on
it inside the selector loop. -/
def badRow : Row :=
  ⟨some "ARS", JVal.nonnum, JVal.num 50, none⟩

/-- A concrete well-formed ARS row at day 7, rate 55. -/
def rowA : Row :=
  ⟨some "ARS", JVal.num 7, JVal.num 55, none⟩

/-- A second ARS row at day 7 with the same rate 55, distinguishable from
rowA by its maturityDate: a rate tie. -/
def rowB : Row :=
  ⟨some "ARS", JVal.num 7, JVal.num 55, some "2026-01-01"⟩

/-- An ARS row whose daysToMaturity key is absent: the loop skips it. -/
def rowC3a : Row :=
  ⟨some "ARS", JVal.missing, JVal.num 50, none⟩

/-- An ARS row at day 7 with no settlementPrice key: kept with rate 0. -/
def rowNoPrice : Row :=
  ⟨some "ARS", JVal.num 7, JVal.missing, none⟩

/-- A matched (maturity, rule) pair of the cycle: some entry of the
best-by-days list and some configured rule pass every gate of the matcher
and produce this result. -/
def IsMatched (l : List (ℤ × Row)) (rules : List Rule) (base_days : ℤ) (cost_rate : ℚ)
    (mr : MatchedResult) : Prop :=
  ∃ d row rule, (d, row) ∈ l ∧ rule ∈ rules ∧
    evalRule rule d (rateD row) base_days cost_rate = some mr

/-- A concrete rule with thresholds at days 7 and 14. -/
def ruleW : Rule :=
  ⟨100000, 1000000, 1, 30, 0, [(7, 50), (14, 50)]⟩

/-- A concrete ARS row at day 14, rate 55. -/
def row14W : Row :=
  ⟨some "ARS", JVal.num 14, JVal.num 55, none⟩

/-- A concrete fetch result with one quote at day 7 and one at day 14. -/
def dataW : List Row :=
  [rowA, row14W]

/-- The best-by-days list the selector produces from dataW. -/
def bbdW : List (ℤ × Row) :=
  [(7, rowA), (14, row14W)]

/-- A concrete starting state: day 14 was notified at rate 54.95 at time 900,
100 seconds before now = 1000, so day 14 is inside the cooldown and below the
minimum improvement while day 7 is fresh. -/
def stateW : StateMap :=
  [("ARS_14", StateVal.obj (some 900) (some (5495/100)))]

/-- stateW after the cycle notifies day 7 at rate 55, time 1000. -/
def stateW2 : StateMap :=
  [("ARS_14", StateVal.obj (some 900) (some (5495/100))),
   ("ARS_7", StateVal.obj (some 1000) (some 55))]

/-- The matched result of ruleW at day 7, rate 55, base 365, cost 0. -/
def mr7W : MatchedResult :=
  ⟨7, 55, 100000, 1000000, 0, 77000/73, 770000/73, none, 50⟩

/-- The matched result of ruleW at day 14, rate 55, base 365, cost 0. -/
def mr14W : MatchedResult :=
  ⟨14, 55, 100000, 1000000, 0, 154000/73, 1540000/73, none, 50⟩

lemma rowRate_ok {x : Row} {r : ℚ} (h : rowRate x = Except.ok r) : r = rateD x := by
  unfold rowRate at h
  unfold rateD
  cases hs : x.settlementPrice <;> rw [hs] at h <;> simp_all

lemma lookupDay_mem : ∀ (l : List (ℤ × Row)) (d : ℤ) (r : Row),
    lookupDay l d = some r → (d, r) ∈ l := by
  intro l
  induction l with
  | nil => intro d r h; cases h
  | cons p rest ih =>
    intro d r h
    cases p with
    | mk pk pv =>
      simp only [lookupDay] at h
      by_cases hpk : pk = d
      · rw [if_pos hpk] at h
        rw [Option.some.injEq] at h
        subst hpk
        subst h
        exact List.mem_cons_self _ _
      · rw [if_neg hpk] at h
        exact List.mem_cons_of_mem _ (ih d r h)

lemma lookupDay_append (l : List (ℤ × Row)) (k : ℤ) (v : Row) (d : ℤ) :
    lookupDay (l ++ [(k, v)]) d =
      match lookupDay l d with
      | some r => some r
      | none => if k = d then some v else none := by
  induction l with
  | nil => rfl
  | cons p rest ih =>
    cases p with
    | mk pk pv =>
      simp only [List.cons_append, lookupDay]
      by_cases hpk : pk = d
      · simp [hpk]
      · simp [hpk, ih]

lemma lookupDay_replace (l : List (ℤ × Row)) (k : ℤ) (x : Row) (d : ℤ)
    (hk : (lookupDay l k).isSome = true) :
    lookupDay (replaceDay l k x) d = if k = d then some x else lookupDay l d := by
  induction l with
  | nil => simp [lookupDay] at hk
  | cons p rest ih =>
    cases p with
    | mk pk pv =>
      simp only [replaceDay, lookupDay]
      by_cases hpk : pk = k
      · subst hpk
        simp only [if_pos rfl, lookupDay]
        by_cases hkd : pk = d
        · simp [hkd]
        · simp [hkd]
      · rw [if_neg hpk]
        simp only [lookupDay]
        by_cases hkd : pk = d
        · rw [if_pos hkd, if_pos hkd]
          have : ¬ k = d := fun h => hpk (by rw [hkd, h])
          rw [if_neg this]
        · rw [if_neg hkd, if_neg hkd]
          simp only [lookupDay, if_neg hpk] at hk
          exact ih hk

lemma mem_replaceDay : ∀ (l : List (ℤ × Row)) (k : ℤ) (x : Row) (p : ℤ × Row),
    p ∈ replaceDay l k x → p = (k, x) ∨ p ∈ l := by
  intro l
  induction l with
  | nil => intro k x p h; cases h
  | cons q rest ih =>
    intro k x p h
    cases q with
    | mk qk qv =>
      simp only [replaceDay] at h
      by_cases hqk : qk = k
      · rw [if_pos hqk] at h
        rcases List.mem_cons.mp h with h | h
        · exact Or.inl h
        · exact Or.inr (List.mem_cons_of_mem _ h)
      · rw [if_neg hqk] at h
        rcases List.mem_cons.mp h with h | h
        · exact Or.inr (by rw [h]; exact List.mem_cons_self _ _)
        · rcases ih k x p h with h | h
          · exact Or.inl h
          · exact Or.inr (List.mem_cons_of_mem _ h)

lemma stepRow_lookup {acc acc2 : List (ℤ × Row)} {x : Row}
    (h : stepRow acc x = Except.ok acc2) (d : ℤ) :
    lookupDay acc2 d =
      if candDayB x d then updOne (lookupDay acc d) x else lookupDay acc d := by
  unfold stepRow at h
  cases hdm : x.daysToMaturity with
  | missing =>
    simp only [hdm, Except.ok.injEq] at h
    subst h
    simp [candDayB, hdm]
  | null =>
    simp only [hdm, Except.ok.injEq] at h
    subst h
    simp [candDayB, hdm]
  | nonnum =>
    simp only [hdm] at h
    cases h
  | num q =>
    simp only [hdm] at h
    by_cases hrange : pyInt q < 1 ∨ 30 < pyInt q
    · rw [if_pos hrange] at h
      simp only [Except.ok.injEq] at h
      subst h
      have hc : candDayB x d = false := by
        simp only [candDayB, hdm, Bool.and_eq_false_iff, decide_eq_false_iff_not]
        omega
      simp [hc]
    · rw [if_neg hrange] at h
      push_neg at hrange
      have hcand : ∀ dd : ℤ, candDayB x dd = decide (pyInt q = dd) := by
        intro dd
        simp [candDayB, hdm, hrange.1, hrange.2]
      cases hrr : rowRate x with
      | error e => rw [hrr] at h; simp at h
      | ok rate =>
        rw [hrr] at h
        simp only [] at h
        have hrx : rate = rateD x := rowRate_ok hrr
        cases hlk : lookupDay acc (pyInt q) with
        | none =>
          rw [hlk] at h
          simp only [Except.ok.injEq] at h
          subst h
          rw [lookupDay_append]
          by_cases hd : pyInt q = d
          · subst hd
            simp [hcand, updOne, hlk]
          · cases had : lookupDay acc d <;> simp [hcand, hd, had]
        | some prev =>
          rw [hlk] at h
          simp only [] at h
          cases hpr : rowRate prev with
          | error e => rw [hpr] at h; simp at h
          | ok prevRate =>
            rw [hpr] at h
            simp only [] at h
            have hpv : prevRate = rateD prev := rowRate_ok hpr
            by_cases hcmp : prevRate < rate
            · rw [if_pos hcmp] at h
              simp only [Except.ok.injEq] at h
              subst h
              rw [lookupDay_replace _ _ _ _ (by rw [hlk]; rfl)]
              by_cases hd : pyInt q = d
              · subst hd
                have hlt : rateD prev < rateD x := by
                  rw [← hpv, ← hrx]
                  exact hcmp
                simp [hcand, updOne, hlk, hlt]
              · simp [hcand, hd]
            · rw [if_neg hcmp] at h
              simp only [Except.ok.injEq] at h
              subst h
              by_cases hd : pyInt q = d
              · subst hd
                have hge : ¬ rateD prev < rateD x := by
                  rw [← hpv, ← hrx]
                  exact hcmp
                simp [hcand, updOne, hlk, hge]
              · simp [hcand, hd]

lemma selectGo_lookup : ∀ (rows : List Row) (acc m : List (ℤ × Row)),
    selectGo rows acc = Except.ok m → ∀ d : ℤ,
      lookupDay m d =
        (rows.filter (fun x => candDayB x d)).foldl updOne (lookupDay acc d) := by
  intro rows
  induction rows with
  | nil =>
    intro acc m h d
    simp only [selectGo, Except.ok.injEq] at h
    subst h
    rfl
  | cons x rest ih =>
    intro acc m h d
    simp only [selectGo] at h
    cases hs : stepRow acc x with
    | error e => rw [hs] at h; cases h
    | ok acc2 =>
      rw [hs] at h
      have hst := stepRow_lookup hs d
      by_cases hc : candDayB x d = true
      · rw [ih acc2 m h d, hst, if_pos hc]
        simp [List.filter_cons, hc]
      · rw [ih acc2 m h d, hst, if_neg hc]
        simp [List.filter_cons, hc]

lemma filter_filter_and (rows : List Row) (p q : Row → Bool) :
    (rows.filter p).filter q = rows.filter (fun x => p x && q x) := by
  induction rows with
  | nil => rfl
  | cons x rest ih =>
    by_cases hp : p x = true
    · by_cases hq : q x = true <;> simp [List.filter_cons, hp, hq, ih]
    · simp [List.filter_cons, hp, ih]

lemma foldl_updOne_some : ∀ (l : List Row) (z y : Row),
    l.foldl updOne (some z) = some y →
    (y = z ∧ ∀ x ∈ l, rateD x ≤ rateD z) ∨
    (∃ l₁ l₂, l = l₁ ++ y :: l₂ ∧ rateD z < rateD y ∧ (∀ x ∈ l₁, rateD x < rateD y) ∧
      ∀ x ∈ l₂, rateD x ≤ rateD y) := by
  intro l
  induction l with
  | nil =>
    intro z y h
    simp only [List.foldl_nil, Option.some.injEq] at h
    exact Or.inl ⟨h.symm, by simp⟩
  | cons x rest ih =>
    intro z y h
    simp only [List.foldl_cons] at h
    by_cases hc : rateD z < rateD x
    · rw [show updOne (some z) x = some x from by simp [updOne, hc]] at h
      rcases ih x y h with ⟨rfl, hall⟩ | ⟨l₁, l₂, heq, hxy, hl₁, hl₂⟩
      · exact Or.inr ⟨[], rest, rfl, hc, by simp, hall⟩
      · refine Or.inr ⟨x :: l₁, l₂, by simp [heq], lt_trans hc hxy, ?_, hl₂⟩
        intro a ha
        rcases List.mem_cons.mp ha with rfl | ha
        · exact hxy
        · exact hl₁ a ha
    · rw [show updOne (some z) x = some z from by simp [updOne, hc]] at h
      rcases ih z y h with ⟨rfl, hall⟩ | ⟨l₁, l₂, heq, hzy, hl₁, hl₂⟩
      · refine Or.inl ⟨rfl, ?_⟩
        intro a ha
        rcases List.mem_cons.mp ha with rfl | ha
        · exact le_of_not_lt hc
        · exact hall a ha
      · refine Or.inr ⟨x :: l₁, l₂, by simp [heq], hzy, ?_, hl₂⟩
        intro a ha
        rcases List.mem_cons.mp ha with rfl | ha
        · exact lt_of_le_of_lt (le_of_not_lt hc) hzy
        · exact hl₁ a ha

lemma firstMax_spec (l : List Row) (y : Row) (h : firstMax l = some y) :
    (∀ x ∈ l, rateD x ≤ rateD y) ∧
    ∃ l₁ l₂, l = l₁ ++ y :: l₂ ∧ ∀ x ∈ l₁, rateD x < rateD y := by
  cases l with
  | nil => cases h
  | cons x rest =>
    have h2 : rest.foldl updOne (some x) = some y := by
      simpa [firstMax, updOne] using h
    rcases foldl_updOne_some rest x y h2 with ⟨rfl, hall⟩ | ⟨l₁, l₂, heq, hxy, hl₁, hl₂⟩
    · refine ⟨?_, [], rest, rfl, by simp⟩
      intro a ha
      rcases List.mem_cons.mp ha with rfl | ha
      · exact le_refl _
      · exact hall a ha
    · refine ⟨?_, x :: l₁, l₂, by simp [heq], ?_⟩
      · intro a ha
        rcases List.mem_cons.mp ha with rfl | ha
        · exact le_of_lt hxy
        · rw [heq] at ha
          rcases List.mem_append.mp ha with ha | ha
          · exact le_of_lt (hl₁ a ha)
          · rcases List.mem_cons.mp ha with rfl | ha
            · exact le_refl _
            · exact hl₂ a ha
      · intro a ha
        rcases List.mem_cons.mp ha with rfl | ha
        · exact hxy
        · exact hl₁ a ha

lemma processRules_fst (days : ℤ) (rate : ℚ) (base_days : ℤ) (cost_rate : ℚ) :
    ∀ (rules : List Rule) (best0 : Option MatchedResult),
      (processRules rules days rate base_days cost_rate best0).1 =
        rules.filterMap (fun r => evalRule r days rate base_days cost_rate) := by
  intro rules
  induction rules with
  | nil => intro best0; rfl
  | cons rule rest ih =>
    intro best0
    cases hr : evalRule rule days rate base_days cost_rate with
    | none => simp [processRules, hr, ih]
    | some mr => simp [processRules, hr, ih]

/-- C1: should_notify decides to notify exactly when the cooldown has elapsed
(now minus the stored last-sent timestamp is at least the cooldown window) or
the candidate rate is at least the stored last-sent rate plus the minimum
improvement; a key with no entry in the state always notifies (the stored
timestamp defaults to 0, and the clock reads at least one cooldown window
past the epoch), and a legacy bare-number entry is read as the last-sent rate
with last-sent timestamp 0. -/
theorem c1_gatekeeper_decision (state : StateMap) (key : String) (rate now : ℚ)
    (hnow : COOLDOWN_MINUTES * 60 ≤ now) :
    (should_notify state key rate now = true ↔
      COOLDOWN_MINUTES * 60 ≤ now - (entryFields (lookupState state key)).1 ∨
      (entryFields (lookupState state key)).2 + MIN_IMPROVEMENT ≤ rate) ∧
    (lookupState state key = none → should_notify state key rate now = true) ∧
    (∀ r, lookupState state key = some (StateVal.legacy r) →
      entryFields (lookupState state key) = (0, r)) := by
  refine ⟨?_, ?_, ?_⟩
  · simp [should_notify]
  · intro h
    unfold should_notify
    rw [h]
    simp only [entryFields, Bool.or_eq_true, decide_eq_true_eq]
    left
    simpa using hnow
  · intro r h
    rw [h]
    rfl

theorem c1_gatekeeper_decision_witness :
    should_notify ([] : StateMap) "ARS_7" 55 1000 = true :=
  (c1_gatekeeper_decision [] "ARS_7" 55 1000 (by norm_num [COOLDOWN_MINUTES])).2.1 rfl

/-- C2: for a (maturity, rule) pair, the inner rule loop emits a matched
result exactly when the day lies in the inclusive rule day range, the
thresholds map of the rule holds an entry for that exact day, the rate is at
least that threshold, and the net profit at capital_max is at least
min_net_profit; and the emitted lines of the loop are exactly the per-rule
results in rule order. -/
theorem c2_rule_matcher (rule : Rule) (rules : List Rule) (days : ℤ) (rate : ℚ)
    (base_days : ℤ) (cost_rate : ℚ) (best0 : Option MatchedResult)
    (hbd : 0 < base_days) :
    ((∃ mr, evalRule rule days rate base_days cost_rate = some mr) ↔
      (rule.day_min ≤ days ∧ days ≤ rule.day_max) ∧
      (∃ t, lookupThr rule.thresholds days = some t ∧ t ≤ rate) ∧
      rule.min_net_profit ≤ net_profit rule.capital_max days rate base_days cost_rate) ∧
    (processRules rules days rate base_days cost_rate best0).1 =
      rules.filterMap (fun r => evalRule r days rate base_days cost_rate) := by
  refine ⟨?_, processRules_fst days rate base_days cost_rate rules best0⟩
  unfold evalRule
  by_cases h1 : days < rule.day_min ∨ rule.day_max < days
  · simp only [h1, if_true]
    constructor
    · rintro ⟨mr, hmr⟩
      exact absurd hmr (by simp)
    · rintro ⟨⟨ha, hb⟩, -⟩
      rcases h1 with h1 | h1 <;> omega
  · simp only [h1, if_false]
    push_neg at h1
    cases hthr : lookupThr rule.thresholds days with
    | none =>
      constructor
      · rintro ⟨mr, hmr⟩
        exact absurd hmr (by simp)
      · rintro ⟨-, ⟨t, ht, -⟩, -⟩
        simp [hthr] at ht
    | some t =>
      by_cases h2 : rate < t
      · simp only [h2, if_true]
        constructor
        · rintro ⟨mr, hmr⟩
          exact absurd hmr (by simp)
        · rintro ⟨-, ⟨t2, ht2, hle⟩, -⟩
          rw [Option.some.injEq] at ht2
          subst ht2
          linarith
      · simp only [h2, if_false]
        by_cases h3 : net_profit rule.capital_max days rate base_days cost_rate <
            rule.min_net_profit
        · simp only [h3, if_true]
          constructor
          · rintro ⟨mr, hmr⟩
            exact absurd hmr (by simp)
          · rintro ⟨-, -, hge⟩
            linarith
        · simp only [h3, if_false]
          refine ⟨fun _ => ?_, fun _ => ⟨_, rfl⟩⟩
          exact ⟨h1, ⟨t, rfl, le_of_not_lt h2⟩, le_of_not_lt h3⟩

theorem c2_rule_matcher_witness :
    ∃ mr, evalRule scenarioARule 7 55 365 (18/10000) = some mr :=
  (c2_rule_matcher scenarioARule [scenarioARule] 7 55 365 (18/10000) none
    (by norm_num)).1.mpr
    ⟨⟨by norm_num [scenarioARule], by norm_num [scenarioARule]⟩,
     ⟨50, rfl, by norm_num⟩,
     by norm_num [scenarioARule, net_profit]⟩

/-- C5: required_capital_for_profit returns no value exactly when the
per-unit net rate is not strictly positive, and when it returns a capital c
the net profit at c equals the requested minimum profit exactly. -/
theorem c5_required_capital (min_profit : ℚ) (days : ℤ) (annual_rate_pct : ℚ)
    (base_days : ℤ) (cost_rate : ℚ) (hbd : 0 < base_days) :
    (required_capital_for_profit min_profit days annual_rate_pct base_days cost_rate = none ↔
      (annual_rate_pct / 100) * ((days : ℚ) / (base_days : ℚ)) - cost_rate ≤ 0) ∧
    (∀ c, required_capital_for_profit min_profit days annual_rate_pct base_days cost_rate =
        some c →
      net_profit c days annual_rate_pct base_days cost_rate = min_profit) := by
  constructor
  · simp only [required_capital_for_profit]
    split_ifs with h
    · simpa using h
    · simpa using h
  · intro c hc
    simp only [required_capital_for_profit] at hc
    set per := (annual_rate_pct / 100) * ((days : ℚ) / (base_days : ℚ)) - cost_rate with hper
    by_cases h : per ≤ 0
    · rw [if_pos h] at hc
      cases hc
    · rw [if_neg h] at hc
      push_neg at h
      have hne : per ≠ 0 := ne_of_gt h
      rw [Option.some.injEq] at hc
      subst hc
      have key : net_profit (min_profit / per) days annual_rate_pct base_days cost_rate =
          (min_profit / per) * per := by
        rw [hper]
        simp only [net_profit]
        ring
      rw [key]
      exact div_mul_cancel₀ min_profit hne

theorem c5_required_capital_witness :
    net_profit (1825000000/3193) 7 55 365 (18/10000) = 5000 :=
  (c5_required_capital 5000 7 55 365 (18/10000) (by norm_num)).2
    (1825000000/3193) (by norm_num [required_capital_for_profit])

/-- C8: for the Scenario A inputs (quote of 7 days at rate 55, rule with
capital range 100000 to 1000000, day range 1 to 30, min_net_profit 0 and
threshold 50 at day 7, cost rate 0.0018, base 365 days) the rule matches,
and the net profit at the floor capital equals
100000 * 0.55 * (7/365) - 100000 * 0.0018, which is within 1 of 874. -/
theorem c8_scenario_a :
    ∃ mr, evalRule scenarioARule 7 55 365 (18/10000) = some mr ∧
      mr.net_min = 100000 * (55/100) * ((7 : ℚ)/365) - 100000 * (18/10000) ∧
      |mr.net_min - 874| < 1 := by
  refine ⟨⟨7, 55, 100000, 1000000, 0, 63860/73, 638600/73, none, 50⟩, ?_, ?_, ?_⟩
  · norm_num [evalRule, scenarioARule, lookupThr, net_profit]
  · norm_num
  · norm_num [abs_lt]

lemma pyInt_seven : pyInt (7:ℚ) = 7 := by
  norm_num [pyInt]

lemma rowRate_isOk {x : Row} (h1 : x.settlementPrice ≠ JVal.null)
    (h2 : x.settlementPrice ≠ JVal.nonnum) : ∃ r, rowRate x = Except.ok r := by
  cases hs : x.settlementPrice with
  | missing => exact ⟨0, by simp [rowRate, hs]⟩
  | null => exact absurd hs h1
  | num q => exact ⟨q, by simp [rowRate, hs]⟩
  | nonnum => exact absurd hs h2

lemma stepRow_good {acc : List (ℤ × Row)} {x : Row} (hx : GoodRow x)
    (hacc : ∀ p ∈ acc, GoodEntry p) :
    ∃ acc2, stepRow acc x = Except.ok acc2 ∧ ∀ p ∈ acc2, GoodEntry p := by
  obtain ⟨hdm0, hp1, hp2⟩ := hx
  cases hdm : x.daysToMaturity with
  | missing => exact ⟨acc, by simp [stepRow, hdm], hacc⟩
  | null => exact ⟨acc, by simp [stepRow, hdm], hacc⟩
  | nonnum => exact absurd hdm hdm0
  | num q =>
    by_cases hrange : pyInt q < 1 ∨ 30 < pyInt q
    · exact ⟨acc, by simp [stepRow, hdm, hrange], hacc⟩
    · obtain ⟨r, hr⟩ := rowRate_isOk hp1 hp2
      cases hlk : lookupDay acc (pyInt q) with
      | none =>
        refine ⟨acc ++ [(pyInt q, x)], by simp [stepRow, hdm, hrange, hr, hlk], ?_⟩
        intro p hp
        rcases List.mem_append.mp hp with hp | hp
        · exact hacc p hp
        · simp only [List.mem_singleton] at hp
          subst hp
          exact ⟨⟨hp1, hp2⟩, q, hdm, rfl⟩
      | some prev =>
        have hprev := hacc _ (lookupDay_mem _ _ _ hlk)
        obtain ⟨rp, hrp⟩ := rowRate_isOk hprev.1.1 hprev.1.2
        by_cases hcmp : rp < r
        · refine ⟨replaceDay acc (pyInt q) x,
            by simp [stepRow, hdm, hrange, hr, hlk, hrp, hcmp], ?_⟩
          intro p hp
          rcases mem_replaceDay _ _ _ _ hp with rfl | hp
          · exact ⟨⟨hp1, hp2⟩, q, hdm, rfl⟩
          · exact hacc p hp
        · exact ⟨acc, by simp [stepRow, hdm, hrange, hr, hlk, hrp, hcmp], hacc⟩

lemma selectGo_good : ∀ (rows : List Row) (acc : List (ℤ × Row)),
    (∀ x ∈ rows, GoodRow x) → (∀ p ∈ acc, GoodEntry p) →
    ∃ m, selectGo rows acc = Except.ok m ∧ ∀ p ∈ m, GoodEntry p := by
  intro rows
  induction rows with
  | nil =>
    intro acc _ hacc
    exact ⟨acc, rfl, hacc⟩
  | cons x rest ih =>
    intro acc hrows hacc
    obtain ⟨acc2, hstep, hacc2⟩ := stepRow_good (hrows x (List.mem_cons_self _ _)) hacc
    obtain ⟨m, hm, hgm⟩ := ih acc2 (fun y hy => hrows y (List.mem_cons_of_mem _ hy)) hacc2
    exact ⟨m, by simp [selectGo, hstep, hm], hgm⟩

/-- C3 (amended): the Quote Selector returns normally on any input list whose
rows carry no non-numeric daysToMaturity and no null or non-numeric
settlementPrice; rows without a numeric daysToMaturity are skipped (every
entry of the output carries a numeric daysToMaturity), and an absent
settlementPrice does not make a row fail.  The original claim fails: a
non-numeric daysToMaturity or settlementPrice raises instead of being
skipped, see the counterexample. -/
theorem c3_selector_tolerance (rows : List Row)
    (h : ∀ x ∈ rows, x.daysToMaturity ≠ JVal.nonnum ∧
      x.settlementPrice ≠ JVal.null ∧ x.settlementPrice ≠ JVal.nonnum) :
    ∃ m, selectBest rows = Except.ok m ∧
      ∀ p ∈ m, ∃ q, p.2.daysToMaturity = JVal.num q ∧ p.1 = pyInt q := by
  have hf : ∀ x ∈ rows.filter (fun y => decide (y.denominationCcy = some "ARS")),
      GoodRow x := by
    intro x hx
    exact h x (List.mem_of_mem_filter hx)
  obtain ⟨m, hm, hg⟩ := selectGo_good _ [] hf (by intro p hp; cases hp)
  exact ⟨m, hm, fun p hp => (hg p hp).2⟩

theorem c3_selector_tolerance_witness :
    ∃ m, selectBest [rowC3a] = Except.ok m ∧
      ∀ p ∈ m, ∃ q, p.2.daysToMaturity = JVal.num q ∧ p.1 = pyInt q := by
  refine c3_selector_tolerance [rowC3a] ?_
  intro x hx
  simp only [List.mem_singleton] at hx
  subst hx
  simp [rowC3a]

/-- C3 counterexample: a single ARS row whose daysToMaturity is non-numeric
makes the whole selector raise ValueError instead of being skipped, refuting
that the selector never fails on malformed individual rows. -/
theorem c3_selector_tolerance_counterexample :
    selectBest [badRow] = Except.error PyErr.valueError := by
  rfl

/-- C4: on a successful run, the selector output maps every maturity d to
exactly the first-maximal-rate candidate among the ARS in-range rows of that
maturity: the chosen row is a candidate, its rate is maximal among the
candidates, and it occurs in candidate order before every other candidate of
equal rate (ties keep the first row encountered). -/
theorem c4_selector_determinism (rows : List Row) (m : List (ℤ × Row))
    (h : selectBest rows = Except.ok m) :
    ∀ d : ℤ,
      lookupDay m d = firstMax (candidates rows d) ∧
      ∀ r, lookupDay m d = some r →
        r ∈ candidates rows d ∧
        (∀ x ∈ candidates rows d, rateD x ≤ rateD r) ∧
        ∃ l₁ l₂, candidates rows d = l₁ ++ r :: l₂ ∧ ∀ x ∈ l₁, rateD x < rateD r := by
  intro d
  have h1 : lookupDay m d = firstMax (candidates rows d) := by
    unfold selectBest at h
    have h2 := selectGo_lookup _ _ _ h d
    rw [h2, filter_filter_and]
    rfl
  refine ⟨h1, ?_⟩
  intro r hr
  rw [h1] at hr
  obtain ⟨hmax, l₁, l₂, heq, hlt⟩ := firstMax_spec _ _ hr
  refine ⟨?_, hmax, l₁, l₂, heq, hlt⟩
  rw [heq]
  exact List.mem_append_right _ (List.mem_cons_self _ _)

theorem c4_selector_determinism_witness :
    lookupDay [((7:ℤ), rowA)] 7 = firstMax (candidates [rowA, rowB] 7) :=
  (c4_selector_determinism [rowA, rowB] [(7, rowA)]
    (by norm_num [selectBest, selectGo, stepRow, rowRate, rowA, rowB,
      List.filter_cons, lookupDay, pyInt_seven]) 7).1

/-- C9: a row with the target currency, an in-range numeric daysToMaturity
and an absent settlementPrice is not skipped: its rate is read as 0, and on
an input where it is the only candidate for its maturity it is selected as
the best quote. -/
theorem c9_missing_price (x : Row) (q : ℚ) (hc : x.denominationCcy = some "ARS")
    (hd : x.daysToMaturity = JVal.num q) (hp : x.settlementPrice = JVal.missing)
    (h1 : 1 ≤ pyInt q) (h2 : pyInt q ≤ 30) :
    rateD x = 0 ∧ selectBest [x] = Except.ok [(pyInt q, x)] := by
  constructor
  · simp [rateD, hp]
  · have hfilter : [x].filter (fun y => decide (y.denominationCcy = some "ARS")) = [x] := by
      simp [List.filter_cons, hc]
    unfold selectBest
    rw [hfilter]
    have hr : rowRate x = Except.ok 0 := by simp [rowRate, hp]
    have hrange : ¬ (pyInt q < 1 ∨ 30 < pyInt q) := by omega
    simp [selectGo, stepRow, hd, hr, hrange, lookupDay]

theorem c9_missing_price_witness :
    rateD rowNoPrice = 0 ∧ selectBest [rowNoPrice] = Except.ok [(pyInt 7, rowNoPrice)] :=
  c9_missing_price rowNoPrice 7 rfl rfl rfl (by norm_num [pyInt]) (by norm_num [pyInt])

lemma lookupState_setKey : ∀ (s : StateMap) (k : String) (v : StateVal) (q : String),
    lookupState (setKey s k v) q = if k = q then some v else lookupState s q := by
  intro s
  induction s with
  | nil =>
    intro k v q
    simp only [setKey, lookupState]
  | cons p rest ih =>
    intro k v q
    cases p with
    | mk a w =>
      simp only [setKey]
      by_cases hak : a = k
      · subst hak
        simp only [lookupState, if_pos rfl]
        by_cases haq : a = q
        · simp [haq]
        · simp [haq]
      · rw [if_neg hak]
        simp only [lookupState]
        by_cases haq : a = q
        · have : ¬ k = q := fun h => hak (by rw [haq, h])
          simp [haq, this]
        · simp [haq, ih]

lemma processDay_shape (rules : List Rule) (base_days : ℤ) (cost_rate : ℚ) (now : ℚ)
    (acc : CycleAcc) (entry : ℤ × Row) :
    (processDay rules base_days cost_rate now acc entry =
      { acc with best_pick :=
          (processRules rules entry.1 (rateD entry.2) base_days cost_rate acc.best_pick).2 }) ∨
    (processDay rules base_days cost_rate now acc entry =
      { day_sections := acc.day_sections ++
          [(entry.1, (processRules rules entry.1 (rateD entry.2) base_days cost_rate
            acc.best_pick).1)],
        changed := true,
        triggered_any := true,
        best_pick :=
          (processRules rules entry.1 (rateD entry.2) base_days cost_rate acc.best_pick).2,
        state := update_state acc.state ("ARS_" ++ toString entry.1) (rateD entry.2) now }) := by
  unfold processDay
  by_cases h1 : (processRules rules entry.1 (rateD entry.2) base_days cost_rate
      acc.best_pick).1 = []
  · left
    simp [h1]
  · by_cases h2 : should_notify acc.state ("ARS_" ++ toString entry.1) (rateD entry.2) now
    · right
      simp [h1, h2]
    · left
      simp [h1, h2]

lemma foldl_changed_mono (rules : List Rule) (base_days : ℤ) (cost_rate : ℚ) (now : ℚ) :
    ∀ (l : List (ℤ × Row)) (acc : CycleAcc), acc.changed = true →
      (l.foldl (processDay rules base_days cost_rate now) acc).changed = true := by
  intro l
  induction l with
  | nil => intro acc h; exact h
  | cons p rest ih =>
    intro acc h
    rw [List.foldl_cons]
    refine ih _ ?_
    rcases processDay_shape rules base_days cost_rate now acc p with hs | hs
    · rw [hs]
      exact h
    · rw [hs]

lemma foldl_changed_triggered (rules : List Rule) (base_days : ℤ) (cost_rate : ℚ) (now : ℚ) :
    ∀ (l : List (ℤ × Row)) (acc : CycleAcc), acc.changed = acc.triggered_any →
      (l.foldl (processDay rules base_days cost_rate now) acc).changed =
        (l.foldl (processDay rules base_days cost_rate now) acc).triggered_any := by
  intro l
  induction l with
  | nil => intro acc h; exact h
  | cons p rest ih =>
    intro acc h
    rw [List.foldl_cons]
    refine ih _ ?_
    rcases processDay_shape rules base_days cost_rate now acc p with hs | hs
    · rw [hs]
      exact h
    · rw [hs]

lemma foldl_state_unchanged (rules : List Rule) (base_days : ℤ) (cost_rate : ℚ) (now : ℚ) :
    ∀ (l : List (ℤ × Row)) (acc : CycleAcc),
      (l.foldl (processDay rules base_days cost_rate now) acc).changed = false →
      (l.foldl (processDay rules base_days cost_rate now) acc).state = acc.state := by
  intro l
  induction l with
  | nil => intro acc _; rfl
  | cons p rest ih =>
    intro acc h
    rw [List.foldl_cons] at h ⊢
    rcases processDay_shape rules base_days cost_rate now acc p with hs | hs
    · rw [hs] at h ⊢
      exact ih _ h
    · have hmono := foldl_changed_mono rules base_days cost_rate now rest
        (processDay rules base_days cost_rate now acc p) (by rw [hs])
      rw [hmono] at h
      cases h

lemma foldl_state_keys (rules : List Rule) (base_days : ℤ) (cost_rate : ℚ) (now : ℚ) :
    ∀ (l : List (ℤ × Row)) (acc : CycleAcc) (key : String),
      (lookupState acc.state key).isSome = true →
      (lookupState ((l.foldl (processDay rules base_days cost_rate now) acc).state)
        key).isSome = true := by
  intro l
  induction l with
  | nil => intro acc key h; exact h
  | cons p rest ih =>
    intro acc key h
    rw [List.foldl_cons]
    refine ih _ key ?_
    rcases processDay_shape rules base_days cost_rate now acc p with hs | hs <;> rw [hs]
    · exact h
    · simp only [update_state]
      rw [lookupState_setKey]
      by_cases hk : ("ARS_" ++ toString p.1) = key
      · rw [if_pos hk]
        rfl
      · rw [if_neg hk]
        exact h

lemma evalCycle_changed_triggered (bbd : List (ℤ × Row)) (rules : List Rule)
    (base_days : ℤ) (cost_rate : ℚ) (state0 : StateMap) (now : ℚ) :
    (evalCycle bbd rules base_days cost_rate state0 now).changed =
      (evalCycle bbd rules base_days cost_rate state0 now).triggered_any :=
  foldl_changed_triggered rules base_days cost_rate now (sortByDay bbd) _ rfl

lemma evalCycle_state_unchanged (bbd : List (ℤ × Row)) (rules : List Rule)
    (base_days : ℤ) (cost_rate : ℚ) (state0 : StateMap) (now : ℚ)
    (h : (evalCycle bbd rules base_days cost_rate state0 now).changed = false) :
    (evalCycle bbd rules base_days cost_rate state0 now).state = state0 :=
  foldl_state_unchanged rules base_days cost_rate now (sortByDay bbd) _ h

lemma betterPick_some {best0 : Option MatchedResult} {mr b : MatchedResult}
    (h : betterPick best0 mr = some b) : best0 = some b ∨ b = mr := by
  cases best0 with
  | none =>
    right
    simpa [betterPick] using h.symm
  | some b0 =>
    by_cases hcmp : b0.net_max < mr.net_max
    · right
      simp only [betterPick, if_pos hcmp, Option.some.injEq] at h
      exact h.symm
    · left
      simp only [betterPick, if_neg hcmp, Option.some.injEq] at h
      rw [h]

lemma betterPick_ge_init {best0 : Option MatchedResult} {mr b0 : MatchedResult}
    (h : best0 = some b0) :
    ∃ b, betterPick best0 mr = some b ∧ b0.net_max ≤ b.net_max := by
  subst h
  by_cases hcmp : b0.net_max < mr.net_max
  · exact ⟨mr, by simp [betterPick, hcmp], le_of_lt hcmp⟩
  · exact ⟨b0, by simp [betterPick, hcmp], le_refl _⟩

lemma betterPick_ge_new (best0 : Option MatchedResult) (mr : MatchedResult) :
    ∃ b, betterPick best0 mr = some b ∧ mr.net_max ≤ b.net_max := by
  cases best0 with
  | none => exact ⟨mr, rfl, le_refl _⟩
  | some b0 =>
    by_cases hcmp : b0.net_max < mr.net_max
    · exact ⟨mr, by simp [betterPick, hcmp], le_refl _⟩
    · exact ⟨b0, by simp [betterPick, hcmp], le_of_not_lt hcmp⟩

lemma processRules_best_cases (days : ℤ) (rate : ℚ) (base_days : ℤ) (cost_rate : ℚ) :
    ∀ (rules : List Rule) (best0 : Option MatchedResult) (b : MatchedResult),
      (processRules rules days rate base_days cost_rate best0).2 = some b →
      best0 = some b ∨ ∃ rule ∈ rules, evalRule rule days rate base_days cost_rate = some b := by
  intro rules
  induction rules with
  | nil =>
    intro best0 b h
    exact Or.inl h
  | cons rule rest ih =>
    intro best0 b h
    cases hr : evalRule rule days rate base_days cost_rate with
    | none =>
      simp only [processRules, hr] at h
      rcases ih best0 b h with h1 | ⟨r, hmem, hev⟩
      · exact Or.inl h1
      · exact Or.inr ⟨r, List.mem_cons_of_mem _ hmem, hev⟩
    | some mr =>
      simp only [processRules, hr] at h
      rcases ih (betterPick best0 mr) b h with h1 | ⟨r, hmem, hev⟩
      · rcases betterPick_some h1 with h2 | h2
        · exact Or.inl h2
        · refine Or.inr ⟨rule, List.mem_cons_self _ _, ?_⟩
          rw [hr, h2]
      · exact Or.inr ⟨r, List.mem_cons_of_mem _ hmem, hev⟩

lemma processRules_best_ge (days : ℤ) (rate : ℚ) (base_days : ℤ) (cost_rate : ℚ) :
    ∀ (rules : List Rule) (best0 : Option MatchedResult) (b0 : MatchedResult),
      best0 = some b0 →
      ∃ b, (processRules rules days rate base_days cost_rate best0).2 = some b ∧
        b0.net_max ≤ b.net_max := by
  intro rules
  induction rules with
  | nil =>
    intro best0 b0 h
    exact ⟨b0, h, le_refl _⟩
  | cons rule rest ih =>
    intro best0 b0 h
    cases hr : evalRule rule days rate base_days cost_rate with
    | none =>
      obtain ⟨b, hb, hle⟩ := ih best0 b0 h
      exact ⟨b, by simp only [processRules, hr]; exact hb, hle⟩
    | some mr =>
      obtain ⟨b1, hb1, hle1⟩ := @betterPick_ge_init best0 mr b0 h
      obtain ⟨b, hb, hle⟩ := ih (betterPick best0 mr) b1 hb1
      exact ⟨b, by simp only [processRules, hr]; exact hb, le_trans hle1 hle⟩

lemma processRules_best_matched (days : ℤ) (rate : ℚ) (base_days : ℤ) (cost_rate : ℚ) :
    ∀ (rules : List Rule) (best0 : Option MatchedResult) (rule : Rule),
      rule ∈ rules →
      ∀ mr, evalRule rule days rate base_days cost_rate = some mr →
      ∃ b, (processRules rules days rate base_days cost_rate best0).2 = some b ∧
        mr.net_max ≤ b.net_max := by
  intro rules
  induction rules with
  | nil =>
    intro best0 rule hmem
    cases hmem
  | cons r0 rest ih =>
    intro best0 rule hmem mr hev
    rcases List.mem_cons.mp hmem with rfl | hmem
    · obtain ⟨b1, hb1, hle1⟩ := betterPick_ge_new best0 mr
      obtain ⟨b, hb, hle⟩ := processRules_best_ge days rate base_days cost_rate rest
        (betterPick best0 mr) b1 hb1
      refine ⟨b, ?_, le_trans hle1 hle⟩
      simp only [processRules, hev]
      exact hb
    · cases hr : evalRule r0 days rate base_days cost_rate with
      | none =>
        obtain ⟨b, hb, hle⟩ := ih best0 rule hmem mr hev
        exact ⟨b, by simp only [processRules, hr]; exact hb, hle⟩
      | some mr0 =>
        obtain ⟨b, hb, hle⟩ := ih (betterPick best0 mr0) rule hmem mr hev
        exact ⟨b, by simp only [processRules, hr]; exact hb, hle⟩

lemma processDay_best (rules : List Rule) (base_days : ℤ) (cost_rate : ℚ) (now : ℚ)
    (acc : CycleAcc) (entry : ℤ × Row) :
    (processDay rules base_days cost_rate now acc entry).best_pick =
      (processRules rules entry.1 (rateD entry.2) base_days cost_rate acc.best_pick).2 := by
  rcases processDay_shape rules base_days cost_rate now acc entry with hs | hs <;> rw [hs]

lemma foldl_best_cases (rules : List Rule) (base_days : ℤ) (cost_rate : ℚ) (now : ℚ) :
    ∀ (l : List (ℤ × Row)) (acc : CycleAcc) (b : MatchedResult),
      (l.foldl (processDay rules base_days cost_rate now) acc).best_pick = some b →
      acc.best_pick = some b ∨ IsMatched l rules base_days cost_rate b := by
  intro l
  induction l with
  | nil =>
    intro acc b h
    exact Or.inl h
  | cons p rest ih =>
    intro acc b h
    rw [List.foldl_cons] at h
    rcases ih _ b h with h1 | h1
    · rw [processDay_best] at h1
      rcases processRules_best_cases p.1 (rateD p.2) base_days cost_rate rules
          acc.best_pick b h1 with h2 | ⟨rule, hmem, hev⟩
      · exact Or.inl h2
      · refine Or.inr ⟨p.1, p.2, rule, ?_, hmem, hev⟩
        exact List.mem_cons_self _ _
    · obtain ⟨d, row, rule, hmem, hrule, hev⟩ := h1
      exact Or.inr ⟨d, row, rule, List.mem_cons_of_mem _ hmem, hrule, hev⟩

lemma foldl_best_ge (rules : List Rule) (base_days : ℤ) (cost_rate : ℚ) (now : ℚ) :
    ∀ (l : List (ℤ × Row)) (acc : CycleAcc) (b0 : MatchedResult),
      acc.best_pick = some b0 →
      ∃ b, (l.foldl (processDay rules base_days cost_rate now) acc).best_pick = some b ∧
        b0.net_max ≤ b.net_max := by
  intro l
  induction l with
  | nil =>
    intro acc b0 h
    exact ⟨b0, h, le_refl _⟩
  | cons p rest ih =>
    intro acc b0 h
    obtain ⟨b1, hb1, hle1⟩ := processRules_best_ge p.1 (rateD p.2) base_days cost_rate rules
      acc.best_pick b0 h
    have hstep : (processDay rules base_days cost_rate now acc p).best_pick = some b1 := by
      rw [processDay_best]
      exact hb1
    obtain ⟨b, hb, hle⟩ := ih _ b1 hstep
    exact ⟨b, by rw [List.foldl_cons]; exact hb, le_trans hle1 hle⟩

lemma foldl_best_matched (rules : List Rule) (base_days : ℤ) (cost_rate : ℚ) (now : ℚ) :
    ∀ (l : List (ℤ × Row)) (acc : CycleAcc) (mr : MatchedResult),
      IsMatched l rules base_days cost_rate mr →
      ∃ b, (l.foldl (processDay rules base_days cost_rate now) acc).best_pick = some b ∧
        mr.net_max ≤ b.net_max := by
  intro l
  induction l with
  | nil =>
    intro acc mr hm
    obtain ⟨d, row, rule, hmem, -, -⟩ := hm
    cases hmem
  | cons p rest ih =>
    intro acc mr hm
    obtain ⟨d, row, rule, hmem, hrule, hev⟩ := hm
    rcases List.mem_cons.mp hmem with heq | hmem
    · obtain ⟨b1, hb1, hle1⟩ := processRules_best_matched d (rateD row) base_days cost_rate
        rules acc.best_pick rule hrule mr hev
      have hd : p.1 = d := by rw [← heq]
      have hrow : p.2 = row := by rw [← heq]
      have hstep : (processDay rules base_days cost_rate now acc p).best_pick = some b1 := by
        rw [processDay_best, hd, hrow]
        exact hb1
      obtain ⟨b, hb, hle⟩ := foldl_best_ge rules base_days cost_rate now rest _ b1 hstep
      exact ⟨b, by rw [List.foldl_cons]; exact hb, le_trans hle1 hle⟩
    · obtain ⟨b, hb, hle⟩ := ih (processDay rules base_days cost_rate now acc p) mr
        ⟨d, row, rule, hmem, hrule, hev⟩
      exact ⟨b, by rw [List.foldl_cons]; exact hb, hle⟩

lemma mem_insertByDay (p q : ℤ × Row) : ∀ (l : List (ℤ × Row)),
    q ∈ insertByDay p l ↔ q = p ∨ q ∈ l := by
  intro l
  induction l with
  | nil => simp [insertByDay]
  | cons r rest ih =>
    simp only [insertByDay]
    by_cases hle : p.1 ≤ r.1
    · rw [if_pos hle]
      simp [List.mem_cons]
    · rw [if_neg hle]
      simp only [List.mem_cons, ih]
      tauto

lemma mem_sortByDay (q : ℤ × Row) : ∀ (l : List (ℤ × Row)), q ∈ sortByDay l ↔ q ∈ l := by
  intro l
  induction l with
  | nil => simp [sortByDay]
  | cons p rest ih =>
    simp only [sortByDay, mem_insertByDay, ih, List.mem_cons]

lemma isMatched_sortByDay (l : List (ℤ × Row)) (rules : List Rule) (base_days : ℤ)
    (cost_rate : ℚ) (mr : MatchedResult) :
    IsMatched (sortByDay l) rules base_days cost_rate mr ↔
      IsMatched l rules base_days cost_rate mr := by
  constructor
  · rintro ⟨d, row, rule, hmem, hrule, hev⟩
    exact ⟨d, row, rule, (mem_sortByDay _ _).mp hmem, hrule, hev⟩
  · rintro ⟨d, row, rule, hmem, hrule, hev⟩
    exact ⟨d, row, rule, (mem_sortByDay _ _).mpr hmem, hrule, hev⟩

lemma evalCycle_best_cases (bbd : List (ℤ × Row)) (rules : List Rule) (base_days : ℤ)
    (cost_rate : ℚ) (state0 : StateMap) (now : ℚ) (b : MatchedResult)
    (hb : (evalCycle bbd rules base_days cost_rate state0 now).best_pick = some b) :
    IsMatched bbd rules base_days cost_rate b := by
  rcases foldl_best_cases rules base_days cost_rate now (sortByDay bbd) _ b hb with h1 | h1
  · simp at h1
  · exact (isMatched_sortByDay _ _ _ _ _).mp h1

lemma evalCycle_best_max (bbd : List (ℤ × Row)) (rules : List Rule) (base_days : ℤ)
    (cost_rate : ℚ) (state0 : StateMap) (now : ℚ) (b mr : MatchedResult)
    (hb : (evalCycle bbd rules base_days cost_rate state0 now).best_pick = some b)
    (hmr : IsMatched bbd rules base_days cost_rate mr) :
    mr.net_max ≤ b.net_max := by
  obtain ⟨b2, hb2, hle⟩ := foldl_best_matched rules base_days cost_rate now (sortByDay bbd)
    _ mr ((isMatched_sortByDay _ _ _ _ _).mpr hmr)
  have hbb : some b = some b2 := by
    rw [← hb]
    exact hb2
  rw [Option.some.injEq] at hbb
  rw [hbb]
  exact hle

lemma pyInt_fourteen : pyInt (14:ℚ) = 14 := by
  norm_num [pyInt]

lemma keyW7 : ("ARS_" ++ toString (7:ℤ)) = "ARS_7" := rfl

lemma keyW14 : ("ARS_" ++ toString (14:ℤ)) = "ARS_14" := rfl

lemma selectBest_W : selectBest dataW = Except.ok bbdW := by
  simp [selectBest, dataW, bbdW, selectGo, stepRow, rowA, row14W, rowRate, lookupDay,
    pyInt_seven, pyInt_fourteen, List.filter_cons]

lemma evalRule_W7 : evalRule ruleW 7 55 365 0 = some mr7W := by
  norm_num [evalRule, ruleW, lookupThr, net_profit, mr7W]

lemma evalRule_W14 : evalRule ruleW 14 55 365 0 = some mr14W := by
  norm_num [evalRule, ruleW, lookupThr, net_profit, mr14W]

lemma processRules_W7 : processRules [ruleW] 7 55 365 0 none = ([mr7W], some mr7W) := by
  simp [processRules, evalRule_W7, betterPick]

lemma processRules_W14 :
    processRules [ruleW] 14 55 365 0 (some mr7W) = ([mr14W], some mr14W) := by
  have hlt : mr7W.net_max < mr14W.net_max := by
    norm_num [mr7W, mr14W]
  simp [processRules, evalRule_W14, betterPick, hlt]

lemma should_notify_W7 : should_notify stateW "ARS_7" 55 1000 = true := by
  have hlk : lookupState stateW "ARS_7" = none := by decide
  norm_num [should_notify, hlk, entryFields, COOLDOWN_MINUTES, MIN_IMPROVEMENT,
    Bool.or_eq_true, decide_eq_true_eq]

lemma should_notify_W14 : should_notify stateW2 "ARS_14" 55 1000 = false := by
  have hlk : lookupState stateW2 "ARS_14" =
      some (StateVal.obj (some 900) (some (5495/100))) := rfl
  norm_num [should_notify, hlk, entryFields, COOLDOWN_MINUTES, MIN_IMPROVEMENT,
    Bool.or_eq_false_iff, decide_eq_false_iff_not]

lemma update_state_W : update_state stateW "ARS_7" 55 1000 = stateW2 := by
  simp [update_state, setKey, stateW, stateW2]

lemma evalCycle_W :
    evalCycle bbdW [ruleW] 365 0 stateW 1000 =
      { day_sections := [(7, [mr7W])], changed := true, triggered_any := true,
        best_pick := some mr14W, state := stateW2 } := by
  have hsort : sortByDay bbdW = bbdW := by
    simp [bbdW, sortByDay, insertByDay]
  have hr7 : rateD rowA = 55 := by simp [rateD, rowA]
  have hr14 : rateD row14W = 55 := by simp [rateD, row14W]
  simp only [evalCycle]
  rw [hsort]
  simp only [bbdW, List.foldl_cons, List.foldl_nil]
  rw [show processDay [ruleW] 365 0 1000
      { day_sections := [], changed := false, triggered_any := false,
        best_pick := none, state := stateW } (7, rowA) =
      { day_sections := [(7, [mr7W])], changed := true, triggered_any := true,
        best_pick := some mr7W, state := stateW2 } from by
    simp [processDay, hr7, processRules_W7, keyW7, should_notify_W7, update_state_W]]
  simp [processDay, hr14, processRules_W14, keyW14, should_notify_W14]

/-- C6: the state is saved at cycle end exactly when some notification fired
during the loop (the changed flag coincides with the triggered flag), an
unsaved cycle leaves the in-memory state identical to the loaded one, a
failed fetch aborts the cycle before any save, and a failed delivery of a
triggered payload raises before the save step. -/
theorem c6_state_persistence (data : List Row) (rules : List Rule) (cost_rate : ℚ)
    (base_days : ℤ) (state0 : StateMap) (now : ℚ) (bbd : List (ℤ × Row))
    (hbd : 0 < base_days) (hsel : selectBest data = Except.ok bbd) :
    (∀ (e : PyErr) (deliveryOk : Bool),
      runCycle (Except.error e) rules cost_rate base_days state0 now deliveryOk =
        Except.error e) ∧
    (∀ (deliveryOk : Bool) (res : CycleResult),
      runCycle (Except.ok data) rules cost_rate base_days state0 now deliveryOk =
        Except.ok res →
      (res.saved = true ↔
        (evalCycle bbd rules base_days cost_rate state0 now).triggered_any = true) ∧
      (res.saved = false → res.state = state0)) ∧
    ((evalCycle bbd rules base_days cost_rate state0 now).triggered_any = true →
      runCycle (Except.ok data) rules cost_rate base_days state0 now false =
        Except.error PyErr.deliveryError) := by
  have hct := evalCycle_changed_triggered bbd rules base_days cost_rate state0 now
  refine ⟨fun e dOk => rfl, ?_, ?_⟩
  · intro dOk res hres
    simp only [runCycle, hsel] at hres
    by_cases htr : (evalCycle bbd rules base_days cost_rate state0 now).triggered_any = true
    · rw [if_pos htr] at hres
      cases dOk with
      | true =>
        rw [if_pos rfl] at hres
        rw [Except.ok.injEq] at hres
        subst hres
        constructor
        · simp [hct]
        · intro hf
          simp only [hct] at hf
          rw [htr] at hf
          exact Bool.noConfusion hf
      | false =>
        rw [if_neg (by simp)] at hres
        simp at hres
    · rw [if_neg htr] at hres
      rw [Except.ok.injEq] at hres
      subst hres
      rw [Bool.not_eq_true] at htr
      have hch : (evalCycle bbd rules base_days cost_rate state0 now).changed = false :=
        hct.trans htr
      constructor
      · simp [hch, htr]
      · intro _
        exact evalCycle_state_unchanged bbd rules base_days cost_rate state0 now hch
  · intro htr
    simp only [runCycle, hsel]
    rw [if_pos htr]
    simp

theorem c6_state_persistence_witness :
    runCycle (Except.ok dataW) [ruleW] 0 365 stateW 1000 false =
      Except.error PyErr.deliveryError :=
  (c6_state_persistence dataW [ruleW] 0 365 stateW 1000 bbdW (by norm_num)
    selectBest_W).2.2 (by rw [evalCycle_W])

/-- C7: a notify decision overwrites the state entry of the key with the
current timestamp and the notified rate, and the day loop never deletes a
state entry: every key present in the loaded state is still present in the
state the cycle hands back. -/
theorem c7_state_growth (bbd : List (ℤ × Row)) (rules : List Rule) (base_days : ℤ)
    (cost_rate : ℚ) (state0 : StateMap) (now : ℚ) (hbd : 0 < base_days) :
    (∀ (state : StateMap) (key : String) (rate : ℚ),
      lookupState (update_state state key rate now) key =
        some (StateVal.obj (some now) (some rate))) ∧
    (∀ key : String, (lookupState state0 key).isSome = true →
      (lookupState (evalCycle bbd rules base_days cost_rate state0 now).state key).isSome
        = true) := by
  constructor
  · intro state key rate
    unfold update_state
    rw [lookupState_setKey, if_pos rfl]
  · intro key h
    exact foldl_state_keys rules base_days cost_rate now (sortByDay bbd) _ key h

theorem c7_state_growth_witness :
    lookupState (update_state ([] : StateMap) "ARS_7" 55 1000) "ARS_7" =
      some (StateVal.obj (some 1000) (some 55)) :=
  (c7_state_growth [] [] 365 0 [] 1000 (by norm_num)).1 [] "ARS_7" 55

/-- C10: when the best pick of the loop exists it is a matched (maturity,
rule) pair of the cycle and its net at capital_max dominates every matched
pair, whether or not the gatekeeper suppressed the maturity; and when some
maturity triggered, the delivered payload carries exactly that pick as its
best-opportunity block, so the summary can name a maturity that no section
of the same payload shows. -/
theorem c10_best_opportunity (data : List Row) (bbd : List (ℤ × Row)) (rules : List Rule)
    (cost_rate : ℚ) (base_days : ℤ) (state0 : StateMap) (now : ℚ) (b : MatchedResult)
    (hbd : 0 < base_days) (hsel : selectBest data = Except.ok bbd)
    (hb : (evalCycle bbd rules base_days cost_rate state0 now).best_pick = some b) :
    IsMatched bbd rules base_days cost_rate b ∧
    (∀ mr, IsMatched bbd rules base_days cost_rate mr → mr.net_max ≤ b.net_max) ∧
    ((evalCycle bbd rules base_days cost_rate state0 now).triggered_any = true →
      runCycle (Except.ok data) rules cost_rate base_days state0 now true =
        Except.ok
          { state := (evalCycle bbd rules base_days cost_rate state0 now).state,
            saved := (evalCycle bbd rules base_days cost_rate state0 now).changed,
            payload := some ⟨(evalCycle bbd rules base_days cost_rate state0 now).day_sections,
              some b⟩ }) := by
  refine ⟨evalCycle_best_cases bbd rules base_days cost_rate state0 now b hb, ?_, ?_⟩
  · intro mr hmr
    exact evalCycle_best_max bbd rules base_days cost_rate state0 now b mr hb hmr
  · intro htr
    simp only [runCycle, hsel]
    rw [if_pos htr]
    rw [if_true, hb]

theorem c10_best_opportunity_witness :
    runCycle (Except.ok dataW) [ruleW] 0 365 stateW 1000 true =
      Except.ok { state := stateW2, saved := true,
                  payload := some ⟨[(7, [mr7W])], some mr14W⟩ } := by
  have h := (c10_best_opportunity dataW bbdW [ruleW] 0 365 stateW 1000 mr14W (by norm_num)
    selectBest_W (by rw [evalCycle_W])).2.2 (by rw [evalCycle_W])
  rw [h, evalCycle_W]

end BymAlert
